import Mathlib

/-!
Verification of the json2toon_rs encoder/decoder pair (src/encoder.rs,
src/decoder.rs, src/common.rs, src/error.rs) against its natural-language
specification.

The Rust code is shallowly embedded: serde_json values become the inductive
`Value` (objects are insertion-ordered association lists, matching the
crate's use of serde_json with order-preserving maps — its own tests assert
insertion-ordered tabular headers), strings are processed as Lean
`List Char` (Rust byte indices agree with char indices on the ASCII inputs
all theorems use), and `f64` parsing/printing is modelled exactly over `ℚ`
on the decimal/scientific grammar of Rust's `f64::from_str` (IEEE rounding
and overflow-to-infinity are not modelled; no theorem exercises them).
Stateful decoder loops are fuel-indexed; `decode` supplies fuel that is
ample for every input the theorems touch.
-/

namespace Json2Toon

/-! ## Character and list helpers (Rust `str` primitives) -/

/-- Whitespace as recognised by Rust's `str::trim` family, restricted to the
ASCII whitespace characters (the only ones the theorems exercise). -/
def isWs (c : Char) : Bool :=
  c = ' ' || c = '\t' || c = '\r' || c = '\n'

def trimChars (cs : List Char) : List Char :=
  ((cs.dropWhile isWs).reverse.dropWhile isWs).reverse

/-- Rust `str::trim` on a Lean string. -/
def rtrim (s : String) : String :=
  String.mk (trimChars s.data)

def leadingWsCount (cs : List Char) : Nat :=
  (cs.takeWhile isWs).length

/-- Index of the first occurrence of `c`, as in Rust `str::find(char)`. -/
def findCharIdx (cs : List Char) (c : Char) : Option Nat :=
  match cs with
  | [] => none
  | x :: rest =>
    if x = c then some 0
    else (findCharIdx rest c).map (· + 1)

def startsWithChar (cs : List Char) (c : Char) : Bool :=
  cs.head? = some c

def endsWithChar (cs : List Char) (c : Char) : Bool :=
  cs.getLast? = some c

def listStartsWith (cs pre : List Char) : Bool :=
  pre.isPrefixOf cs

/-- Rust `str::contains("]:")` specialised to the two-character pattern. -/
def containsSub2 (cs : List Char) (a b : Char) : Bool :=
  match cs with
  | [] => false
  | [_] => false
  | x :: y :: rest => (x = a && y = b) || containsSub2 (y :: rest) a b

def splitOnChar (cs : List Char) (c : Char) : List (List Char) :=
  match cs with
  | [] => [[]]
  | x :: rest =>
    let parts := splitOnChar rest c
    if x = c then [] :: parts
    else
      match parts with
      | [] => [[x]]
      | p :: ps => (x :: p) :: ps

def stripTrailingCR (cs : List Char) : List Char :=
  match cs.getLast? with
  | some '\r' => cs.dropLast
  | _ => cs

/-- Rust `str::lines`: split on newline, drop a final empty segment, strip a
trailing carriage return from each line. -/
def rustLines (s : String) : List (List Char) :=
  let ps := splitOnChar s.data '\n'
  let ps := if ps.getLast? = some [] then ps.dropLast else ps
  ps.map stripTrailingCR

def isAsciiChar (c : Char) : Bool :=
  c.toNat < 128

/-! ## Shared data model (src/common.rs, src/error.rs, serde_json values) -/

inductive Delim where
  | comma
  | tab
  | pipe
deriving DecidableEq, Repr

def Delim.asChar : Delim → Char
  | .comma => ','
  | .tab => '\t'
  | .pipe => '|'

def Delim.headerSymbol : Delim → String
  | .comma => ""
  | .tab => "\t"
  | .pipe => "|"

/-- serde_json numbers: 64-bit integers (i64/u64 merged into `Int`) or a
finite double, modelled as the exact rational the literal denotes. -/
inductive JNum where
  | int (n : Int)
  | float (q : ℚ)
deriving DecidableEq, Repr

/-- serde_json `Value` with insertion-ordered objects. -/
inductive Value where
  | null
  | bool (b : Bool)
  | num (n : JNum)
  | str (s : String)
  | arr (elems : List Value)
  | obj (fields : List (String × Value))
deriving Repr

/-- src/error.rs `DecodeError`, plus `fuelExhausted`, the standard marker for
the fuel-indexed loops (proven unreachable at the fuel `decode` supplies on
every input a theorem evaluates). -/
inductive DecodeError where
  | invalidIndentation (line : Nat)
  | invalidArrayHeader (msg : String)
  | arrayLengthMismatch (expected found : Nat)
  | rowWidthMismatch (line expected found : Nat)
  | invalidLine (line : Nat) (content : String)
  | invalidEscapeSequence (line : Nat) (sequence : String)
  | parseError (msg : String)
  | fuelExhausted
deriving DecidableEq, Repr

structure DecOpts where
  indent : Nat
  strict : Bool
deriving DecidableEq, Repr

def defaultDec : DecOpts := { indent := 2, strict := true }

structure EncOpts where
  indent : Nat
  delimiter : Delim
deriving DecidableEq, Repr

def defaultEnc : EncOpts := { indent := 2, delimiter := .comma }

abbrev DecM (α : Type) := Except DecodeError α

/-! ## Numeric parsing (Rust `i64::from_str`, `usize::from_str`,
`f64::from_str`) -/

def digitVal (c : Char) : Nat :=
  c.toNat - '0'.toNat

def digitsToNat (ds : List Char) : Nat :=
  ds.foldl (fun a c => 10 * a + digitVal c) 0

def allDigits (ds : List Char) : Bool :=
  ds.all Char.isDigit

/-- Optional leading sign of an integer literal, peeled off the front. -/
def splitIntSign (cs : List Char) : Int × List Char :=
  if cs.head? = some '+' then (1, cs.tail)
  else if cs.head? = some '-' then (-1, cs.tail)
  else (1, cs)

/-- Rust `i64::from_str`: optional sign, nonempty digits, i64 range. -/
def parseI64 (cs : List Char) : Option Int :=
  let (sign, ds) := splitIntSign cs
  if ds.isEmpty || !allDigits ds then none
  else
    let v : Int := sign * (digitsToNat ds : Int)
    if -(2 ^ 63) ≤ v ∧ v ≤ 2 ^ 63 - 1 then some v else none

/-- Rust `usize::from_str` (64-bit): optional `+`, nonempty digits, range. -/
def parseUsize (cs : List Char) : Option Nat :=
  let ds := if cs.head? = some '+' then cs.tail else cs
  if ds.isEmpty || !allDigits ds then none
  else
    let v := digitsToNat ds
    if v < 2 ^ 64 then some v else none

/-- Result of Rust `f64::from_str`, with the finite case carried exactly. -/
inductive F64 where
  | finite (q : ℚ)
  | inf
  | neginf
  | nan
deriving DecidableEq, Repr

def mkRat (neg : Bool) (intDs fracDs : List Char) (e : Int) : ℚ :=
  let mag : ℚ :=
    ((digitsToNat intDs : ℚ) + (digitsToNat fracDs : ℚ) / (10 : ℚ) ^ fracDs.length)
      * (10 : ℚ) ^ e
  if neg then -mag else mag

/-- Rust `f64::from_str` on the grammar
`[+-]? (inf|infinity|nan | digits [. digits?] | . digits) ([eE][+-]?digits)?`
(keywords case-insensitive). The finite value is the exact rational; IEEE
rounding and overflow to infinity are not modelled. -/
def parseF64 (s : String) : Option F64 :=
  let cs := s.data
  let neg := cs.head? = some '-'
  let rest := if cs.head? = some '-' ∨ cs.head? = some '+' then cs.tail else cs
  let lower := rest.map Char.toLower
  if lower = "inf".data || lower = "infinity".data then
    some (if neg then .neginf else .inf)
  else if lower = "nan".data then some .nan
  else
    let intDs := rest.takeWhile Char.isDigit
    let r1 := rest.dropWhile Char.isDigit
    let (fracDs, r2) : Option (List Char) × List Char :=
      match r1 with
      | '.' :: r => (some (r.takeWhile Char.isDigit), r.dropWhile Char.isDigit)
      | _ => (none, r1)
    if intDs.isEmpty ∧ (fracDs.getD []).isEmpty then none
    else
      let fds := fracDs.getD []
      match r2 with
      | [] => some (.finite (mkRat neg intDs fds 0))
      | e :: r3 =>
        if e = 'e' ∨ e = 'E' then
          let (esign, r4) := splitIntSign r3
          let expDs := r4.takeWhile Char.isDigit
          let r5 := r4.dropWhile Char.isDigit
          if expDs.isEmpty ∨ ¬ r5.isEmpty then none
          else some (.finite (mkRat neg intDs fds (esign * (digitsToNat expDs : Int))))
        else none

/-! ## Encoder (src/encoder.rs) -/

def isPrimitive : Value → Bool
  | .null | .bool _ | .num _ | .str _ => true
  | .arr _ | .obj _ => false

def asObject : Value → Option (List (String × Value))
  | .obj fs => some fs
  | _ => none

/-- `Encoder::quote_and_escape`. -/
def quoteAndEscape (s : String) : String :=
  let esc : Char → String := fun c =>
    if c = '\\' then "\\\\"
    else if c = '"' then "\\\""
    else if c = '\n' then "\\n"
    else if c = '\r' then "\\r"
    else if c = '\t' then "\\t"
    else String.mk [c]
  "\"" ++ String.mk (s.data.flatMap (fun c => (esc c).data)) ++ "\""

/-- `Encoder::is_numeric_like`: leading-zero shapes, or anything
`f64::from_str` accepts. -/
def isNumericLike (s : String) : Bool :=
  (match s.data with
   | '0' :: c :: _ => c.isDigit
   | _ => false)
  || (parseF64 s).isSome

/-- The quoting condition of `Encoder::quote_string`. -/
def needsQuoting (s : String) (delim : Delim) : Bool :=
  s.isEmpty
  || startsWithChar s.data ' '
  || endsWithChar s.data ' '
  || s = "true"
  || s = "false"
  || s = "null"
  || s = "-"
  || startsWithChar s.data '-'
  || s.data.contains ':'
  || s.data.contains '"'
  || s.data.contains '\\'
  || s.data.contains '['
  || s.data.contains ']'
  || s.data.contains '\x7b'
  || s.data.contains '\x7d'
  || s.data.contains '\n'
  || s.data.contains '\r'
  || s.data.contains '\t'
  || s.data.contains delim.asChar
  || isNumericLike s

/-- `Encoder::quote_string`. -/
def quoteString (s : String) (delim : Delim) : String :=
  if needsQuoting s delim then quoteAndEscape s else s

/-- `Encoder::encode_key`: unquoted only for `[A-Za-z_][A-Za-z0-9_.]*`. -/
def encodeKey (key : String) : String :=
  let needs :=
    key.isEmpty
    || (match key.data.head? with
        | some c => !c.isAlpha && c ≠ '_'
        | none => true)
    || !key.data.all (fun c => c.isAlphanum || c = '_' || c = '.')
  if needs then quoteAndEscape key else key

/-- Decimal rendering of a rational whose denominator divides a power of ten
(every finite float the model constructs); stands in for Rust's shortest
round-trip float printing. -/
def ratToDecimalString (q : ℚ) : String :=
  let sign := if q < 0 then "-" else ""
  let aq := |q|
  match (List.range 400).find? (fun k => (aq * (10 : ℚ) ^ k).den = 1) with
  | some k =>
    let n := (aq * (10 : ℚ) ^ k).num.toNat
    if k = 0 then sign ++ toString n
    else
      let s := toString n
      let s := if s.length ≤ k then String.mk (List.replicate (k + 1 - s.length) '0') ++ s else s
      sign ++ String.mk (s.data.take (s.length - k)) ++ "." ++ String.mk (s.data.drop (s.length - k))
  | none => sign ++ toString aq.num ++ "/" ++ toString aq.den

/-- The trailing-zero trimming at the end of `Encoder::normalize_number`. -/
def trimFloatString (s : String) : String :=
  if s.data.contains '.' then
    let trimmed := (s.data.reverse.dropWhile (· = '0')).reverse
    match trimmed.getLast? with
    | some '.' => String.mk trimmed.dropLast
    | _ => String.mk trimmed
  else s

/-- `Encoder::normalize_number`. NaN/infinity cannot inhabit `JNum` (serde's
`Number::from_f64` rejects them), so only the finite branch is modelled. -/
def normalizeNumber : JNum → String
  | .int n => toString n
  | .float q =>
    if q = 0 then "0"
    else trimFloatString (ratToDecimalString q)

/-- `Encoder::quote_primitive`: arrays and objects produce the empty token. -/
def quotePrimitive (v : Value) (delim : Delim) : String :=
  match v with
  | .null => "null"
  | .bool b => if b then "true" else "false"
  | .num n => normalizeNumber n
  | .str s => quoteString s delim
  | .arr _ => ""
  | .obj _ => ""

/-- `Encoder::detect_tabular`. -/
def detectTabular (arr : List Value) : Option (List String) :=
  if arr.isEmpty then none
  else
    let objects := arr.filterMap asObject
    if objects.length ≠ arr.length then none
    else
      match objects with
      | [] => none
      | first :: _ =>
        let fields := first.map Prod.fst
        if objects.all (fun o =>
            o.length = fields.length
            && fields.all (fun f =>
                 match List.lookup f o with
                 | some v => isPrimitive v
                 | none => false)) then
          some fields
        else none

/-- `Encoder::is_inline_primitive_array`. -/
def isInlinePrimitiveArray (arr : List Value) : Bool :=
  if arr.isEmpty then true
  else if !arr.all isPrimitive then false
  else
    let hasNumber := arr.any (fun v => match v with | .num _ => true | _ => false)
    let hasString := arr.any (fun v => match v with | .str _ => true | _ => false)
    let hasBool := arr.any (fun v => match v with | .bool _ => true | _ => false)
    let hasNull := arr.any (fun v => match v with | .null => true | _ => false)
    let typeCount := [hasNumber, hasString, hasBool, hasNull].countP (· = true)
    typeCount = 1

def indentStr (opts : EncOpts) (depth : Nat) : String :=
  String.mk (List.replicate (depth * opts.indent) ' ')

def joinKeysGo (d : Delim) (i : Nat) : List String → String
  | [] => ""
  | f :: rest =>
    (if i > 0 then String.mk [d.asChar] else "") ++ encodeKey f ++ joinKeysGo d (i + 1) rest

/-- `Encoder::write_array_header`. -/
def writeArrayHeader (len : Nat) (d : Delim) (fields : Option (List String)) : String :=
  "[" ++ toString len ++ d.headerSymbol ++ "]"
  ++ (match fields with
      | some fs => "\x7b" ++ joinKeysGo d 0 fs ++ "\x7d"
      | none => "")
  ++ ":"

/-- The delimiter-joined value list used for inline arrays and for nested
arrays on list-item lines. -/
def joinQuotedGo (d : Delim) (i : Nat) : List Value → String
  | [] => ""
  | v :: rest =>
    (if i > 0 then String.mk [d.asChar] else "") ++ quotePrimitive v d ++ joinQuotedGo d (i + 1) rest

def joinQuoted (arr : List Value) (d : Delim) : String :=
  joinQuotedGo d 0 arr

def joinFieldsGo (m : List (String × Value)) (d : Delim) (i : Nat) : List String → String
  | [] => ""
  | f :: rest =>
    (if i > 0 then String.mk [d.asChar] else "")
    ++ (match List.lookup f m with
        | some v => quotePrimitive v d
        | none => "")
    ++ joinFieldsGo m d (i + 1) rest

/-- One row of a tabular array (the loop body in `encode_array_after_key`);
a non-object element yields an empty row. -/
def encodeTabularRow (v : Value) (fields : List String) (d : Delim) : String :=
  match v with
  | .obj m => joinFieldsGo m d 0 fields
  | _ => ""

def encodeTabularRows (opts : EncOpts) (arr : List Value) (fields : List String) (depth : Nat) :
    String :=
  match arr with
  | [] => ""
  | v :: rest =>
    "\n" ++ indentStr opts (depth + 1) ++ encodeTabularRow v fields opts.delimiter
    ++ encodeTabularRows opts rest fields depth

mutual

/-- `Encoder::encode_object` (the indexed loop over fields). -/
def encodeObjectGo (opts : EncOpts) (depth i : Nat) :
    List (String × Value) → String
  | [] => ""
  | (key, value) :: rest =>
    let pre := if i > 0 then "\n" else if depth > 0 then "\n" else ""
    let body :=
      match value with
      | .obj [] => ":"
      | .obj nested => ":" ++ encodeObjectGo opts (depth + 1) 0 nested
      | .arr a => encodeArrayAfterKey opts a depth
      | v => ": " ++ quotePrimitive v opts.delimiter
    pre ++ indentStr opts depth ++ encodeKey key ++ body
    ++ encodeObjectGo opts depth (i + 1) rest

/-- `Encoder::encode_array_after_key`. -/
def encodeArrayAfterKey (opts : EncOpts) (a : List Value) (depth : Nat) : String :=
  let len := a.length
  let d := opts.delimiter
  match detectTabular a with
  | some fields =>
    writeArrayHeader len d (some fields) ++ encodeTabularRows opts a fields depth
  | none =>
    if isInlinePrimitiveArray a then
      writeArrayHeader len d none ++ (if a.isEmpty then "" else " " ++ joinQuoted a d)
    else
      writeArrayHeader len d none ++ encodeListItems opts a depth

/-- The per-item loop of the expanded-list branch of
`encode_array_after_key`. -/
def encodeListItems (opts : EncOpts) (items : List Value) (depth : Nat) : String :=
  match items with
  | [] => ""
  | item :: rest =>
    "\n" ++ indentStr opts (depth + 1) ++ "- "
    ++ (match item with
        | .arr inner =>
          writeArrayHeader inner.length opts.delimiter none
          ++ (if inner.isEmpty then "" else " " ++ joinQuoted inner opts.delimiter)
        | .obj o => encodeListItemFieldsGo opts o (depth + 1) true
        | v => quotePrimitive v opts.delimiter)
    ++ encodeListItems opts rest depth

/-- `Encoder::encode_object_as_list_item`. In the Rust loop the `first` flag
is cleared before the value match, so the `depth + 2` branch there is dead;
it is kept verbatim. -/
def encodeListItemFieldsGo (opts : EncOpts) (fields : List (String × Value)) (depth : Nat)
    (first : Bool) : String :=
  match fields with
  | [] => ""
  | (key, value) :: rest =>
    let pre := if first then "" else "\n" ++ indentStr opts depth
    let firstAfter := false
    let body :=
      match value with
      | .obj [] => ""
      | .obj nested =>
        "\n" ++ encodeObjectGo opts (if firstAfter then depth + 2 else depth + 1) 0 nested
      | .arr a => encodeArrayAfterKey opts a depth
      | v => " " ++ quotePrimitive v opts.delimiter
    pre ++ encodeKey key ++ ":" ++ body
    ++ encodeListItemFieldsGo opts rest depth false

end

/-- `encode` / `Encoder::encode_value` at the root. -/
def encode (v : Value) (opts : EncOpts) : String :=
  match v with
  | .obj [] => ""
  | .obj fields => encodeObjectGo opts 0 0 fields
  | .arr a => encodeArrayAfterKey opts a 0
  | .null => "null"
  | .bool b => if b then "true" else "false"
  | .num n => normalizeNumber n
  | .str s => quoteString s opts.delimiter

/-! ## Decoder (src/decoder.rs) -/

structure Line where
  content : String
  depth : Nat
  lineNum : Nat
deriving DecidableEq, Repr

/-- The loop body of `Decoder::parse_lines` over enumerated raw lines. -/
def parseLinesGo (opts : DecOpts) : Nat → List (List Char) → DecM (List Line)
  | _, [] => .ok []
  | idx, l :: rest =>
    if (trimChars l).isEmpty then parseLinesGo opts (idx + 1) rest
    else
      let leading := leadingWsCount l
      if opts.strict ∧ leading % opts.indent ≠ 0 then
        .error (.invalidIndentation (idx + 1))
      else do
        let ls ← parseLinesGo opts (idx + 1) rest
        .ok ({ content := String.mk (trimChars l)
               depth := leading / opts.indent
               lineNum := idx + 1 } :: ls)

/-- `Decoder::parse_lines`. -/
def parseLines (input : String) (opts : DecOpts) : DecM (List Line) :=
  parseLinesGo opts 0 (rustLines input)

/-- `Decoder::is_root_array`, on the first line's content. -/
def isRootArrayContent (s : String) : Bool :=
  startsWithChar s.data '[' && containsSub2 s.data ']' ':'

def isKeyValueGo (inQuotes : Bool) : List Char → Bool
  | [] => false
  | c :: rest =>
    if c = '"' then isKeyValueGo (!inQuotes) rest
    else if c = ':' ∧ ¬ inQuotes then true
    else isKeyValueGo inQuotes rest

/-- `Decoder::is_key_value`: the line has an unquoted colon. -/
def isKeyValue (s : String) : Bool :=
  isKeyValueGo false s.data

/-- Scan of `Decoder::parse_key_value`: position of the first colon outside
quotes, where a quote preceded by a backslash does not toggle. -/
def findUnquotedColonGo (inQuotes : Bool) (i : Nat) (prev : Option Char) :
    List Char → Option Nat
  | [] => none
  | c :: rest =>
    if c = '"' ∧ (i = 0 ∨ prev ≠ some '\\') then
      findUnquotedColonGo (!inQuotes) (i + 1) (some c) rest
    else if c = ':' ∧ ¬ inQuotes then some i
    else findUnquotedColonGo inQuotes (i + 1) (some c) rest

def findUnquotedColon (cs : List Char) : Option Nat :=
  findUnquotedColonGo false 0 none cs

/-- The escape-processing loop of `Decoder::unescape_string_cow`. -/
def unescapeInner (lineNum : Nat) (strict : Bool) : List Char → DecM (List Char)
  | [] => .ok []
  | '\\' :: rest =>
    match rest with
    | [] =>
      if strict then .error (.parseError "Unterminated escape sequence")
      else .ok ['\\']
    | c :: rest' =>
      if c = '\\' then (unescapeInner lineNum strict rest').map ('\\' :: ·)
      else if c = '"' then (unescapeInner lineNum strict rest').map ('"' :: ·)
      else if c = 'n' then (unescapeInner lineNum strict rest').map ('\n' :: ·)
      else if c = 'r' then (unescapeInner lineNum strict rest').map ('\r' :: ·)
      else if c = 't' then (unescapeInner lineNum strict rest').map ('\t' :: ·)
      else if ¬ isAsciiChar c ∧ strict then
        .error (.invalidEscapeSequence lineNum
          (String.mk [c] ++ " (non-ASCII character in escape)"))
      else if strict then
        .error (.invalidEscapeSequence lineNum (String.mk [c]))
      else (unescapeInner lineNum strict rest').map (fun r => '\\' :: c :: r)
  | c :: rest => (unescapeInner lineNum strict rest).map (c :: ·)

/-- `Decoder::unescape_string_cow` (and hence `unescape_string`). -/
def unescapeString (s : String) (lineNum : Nat) (strict : Bool) : DecM String :=
  let trimmed := trimChars s.data
  if ¬ (startsWithChar trimmed '"' ∧ endsWithChar trimmed '"') then
    .ok (String.mk trimmed)
  else
    let inner := trimmed.drop 1 |>.dropLast
    if ¬ inner.contains '\\' then .ok (String.mk inner)
    else (unescapeInner lineNum strict inner).map String.mk

/-- `Decoder::parse_key_value`. -/
def parseKeyValue (line : String) (lineNum : Nat) (strict : Bool) :
    DecM (Option (String × String)) :=
  match findUnquotedColon line.data with
  | some pos => do
    let key := String.mk (trimChars (line.data.take pos))
    let value := String.mk (trimChars (line.data.drop (pos + 1)))
    let unescapedKey ← unescapeString key lineNum strict
    .ok (some (unescapedKey, value))
  | none => .ok none

def splitByDelimGo (dc : Char) : List Char → Bool → List Char → List (List Char)
  | [], _, cur => [cur]
  | c :: rest, inQ, cur =>
    if c = '"' then splitByDelimGo dc rest (!inQ) (cur ++ [c])
    else if c = '\\' ∧ inQ then
      match rest with
      | next :: rest' => splitByDelimGo dc rest' inQ (cur ++ [c, next])
      | [] => splitByDelimGo dc [] inQ (cur ++ [c])
    else if c = dc ∧ ¬ inQ then cur :: splitByDelimGo dc rest inQ []
    else splitByDelimGo dc rest inQ (cur ++ [c])

/-- `Decoder::split_by_delimiter` (tokens trimmed, quotes respected). -/
def splitByDelimiter (s : String) (d : Delim) : List String :=
  (splitByDelimGo d.asChar s.data false []).map (fun cs => String.mk (trimChars cs))

/-- `Decoder::parse_primitive`. -/
def parsePrimitive (s : String) (lineNum : Nat) (strict : Bool) : DecM Value :=
  let t := trimChars s.data
  if startsWithChar t '"' ∧ endsWithChar t '"' then
    (unescapeString (String.mk t) lineNum strict).map .str
  else if t = "true".data then .ok (.bool true)
  else if t = "false".data then .ok (.bool false)
  else if t = "null".data then .ok .null
  else if (¬ t.isEmpty ∧ ¬ startsWithChar t '0')
      ∨ t = "0".data ∨ listStartsWith t "0.".data ∨ listStartsWith t "-0".data then
    match parseI64 t with
    | some i => .ok (.num (.int i))
    | none =>
      match parseF64 (String.mk t) with
      | some (.finite q) => .ok (.num (.float q))
      | _ => .ok (.str (String.mk t))
  else .ok (.str (String.mk t))

/-- `collect::<Result<Vec<_>, _>>` over `unescape_string` (field names of an
array header). -/
def collectUnescaped (fs : List String) (lineNum : Nat) (strict : Bool) :
    DecM (List String) :=
  match fs with
  | [] => .ok []
  | f :: rest => do
    let u ← unescapeString f lineNum strict
    let us ← collectUnescaped rest lineNum strict
    .ok (u :: us)

/-- `collect::<Result<Vec<Value>, _>>` over `parse_primitive` (inline array
tokens). -/
def collectPrimitives (vs : List String) (lineNum : Nat) (strict : Bool) :
    DecM (List Value) :=
  match vs with
  | [] => .ok []
  | v :: rest => do
    let x ← parsePrimitive v lineNum strict
    let xs ← collectPrimitives rest lineNum strict
    .ok (x :: xs)

/-- `Decoder::parse_array_header`: `[N<delim?>]` with optional brace-wrapped
field list. -/
def parseArrayHeader (header : String) (lineNum : Nat) (strict : Bool) :
    DecM (Nat × Delim × List String) := do
  match findCharIdx header.data ']' with
  | none => .error (.invalidArrayHeader "Missing ] in array header")
  | some bracketEnd =>
    let bracketContent := (header.data.drop 1).take (bracketEnd - 1)
    let lengthOf : List Char → DecM Nat := fun cs =>
      match parseUsize cs with
      | some n => .ok n
      | none => .error (.invalidArrayHeader "Invalid array length")
    let (length, delim) ←
      if endsWithChar bracketContent '\t' then do
        let n ← lengthOf bracketContent.dropLast
        pure (n, Delim.tab)
      else if endsWithChar bracketContent '|' then do
        let n ← lengthOf bracketContent.dropLast
        pure (n, Delim.pipe)
      else do
        let n ← lengthOf bracketContent
        pure (n, Delim.comma)
    let afterBracket := header.data.drop (bracketEnd + 1)
    let fields ←
      if startsWithChar afterBracket '\x7b' then
        match findCharIdx afterBracket '\x7d' with
        | some closeBrace =>
          collectUnescaped
            (splitByDelimiter (String.mk ((afterBracket.drop 1).take (closeBrace - 1))) delim)
            lineNum strict
        | none => pure []
      else pure []
    .ok (length, delim, fields)

/-- `Decoder::decode_inline_array`. -/
def decodeInlineArray (valuesStr : String) (delim : Delim) (expectedLen lineNum : Nat)
    (strict : Bool) : DecM Value := do
  let values := splitByDelimiter valuesStr delim
  if strict ∧ values.length ≠ expectedLen then
    .error (.arrayLengthMismatch expectedLen values.length)
  else do
    let arr ← collectPrimitives values lineNum strict
    .ok (.arr arr)

/-- IndexMap-style insert (serde_json with order preservation, as the crate's
own tests require): replace the value in place, or append a new key. -/
def mapInsert (m : List (String × Value)) (k : String) (v : Value) :
    List (String × Value) :=
  match m with
  | [] => [(k, v)]
  | (k', v') :: rest => if k' = k then (k, v) :: rest else (k', v') :: mapInsert rest k v

/-- The row-building loop of `decode_tabular_array`: zip fields with the
split values, skipping indices past the end of `values`. -/
def buildRowGo (values : List String) (lineNum : Nat) (strict : Bool)
    (obj : List (String × Value)) (i : Nat) : List String → DecM (List (String × Value))
  | [] => .ok obj
  | f :: rest =>
    if i < values.length then do
      let v ← parsePrimitive (values.getD i "") lineNum strict
      buildRowGo values lineNum strict (mapInsert obj f v) (i + 1) rest
    else buildRowGo values lineNum strict obj (i + 1) rest

mutual

/-- `Decoder::decode_object` (the `end_line` parameter is `None` at every
call site in the source and is dropped). Returns the decoded object and the
final cursor position. -/
def decodeObject (opts : DecOpts) (lines : List Line) (startDepth pos : Nat)
    (acc : List (String × Value)) (fuel : Nat) : DecM (Value × Nat) :=
  match fuel with
  | 0 => .error .fuelExhausted
  | fuel + 1 =>
    match lines.get? pos with
    | none => .ok (.obj acc, pos)
    | some line =>
      if line.depth < startDepth then .ok (.obj acc, pos)
      else if line.depth > startDepth then
        decodeObject opts lines startDepth (pos + 1) acc fuel
      else do
        match ← parseKeyValue line.content line.lineNum opts.strict with
        | none => .error (.invalidLine line.lineNum line.content)
        | some (key, valuePart) =>
          let pos := pos + 1
          match findCharIdx key.data '[' with
          | some bracketPos =>
            let actualKey := String.mk (key.data.take bracketPos)
            let header := String.mk (key.data.drop bracketPos)
            let fullHeader := if valuePart = "" then header
              else header ++ ":" ++ valuePart
            match ← tryParseArrayHeader opts lines fullHeader startDepth line.lineNum pos fuel with
            | (some v, posAfter) =>
              decodeObject opts lines startDepth posAfter (mapInsert acc actualKey v) fuel
            | (none, _) =>
              .error (.invalidArrayHeader ("Invalid array header in key: " ++ key))
          | none =>
            if valuePart = "" then
              match lines.get? pos with
              | some next =>
                if next.depth > startDepth then do
                  let (v, posAfter) ← decodeObject opts lines (startDepth + 1) pos [] fuel
                  decodeObject opts lines startDepth posAfter (mapInsert acc key v) fuel
                else
                  decodeObject opts lines startDepth pos (mapInsert acc key (.obj [])) fuel
              | none =>
                decodeObject opts lines startDepth pos (mapInsert acc key (.obj [])) fuel
            else do
              let v ← parsePrimitive valuePart line.lineNum opts.strict
              decodeObject opts lines startDepth pos (mapInsert acc key v) fuel

termination_by structural fuel

/-- `Decoder::try_parse_array_header`. -/
def tryParseArrayHeader (opts : DecOpts) (lines : List Line) (headerPart : String)
    (parentDepth lineNum pos : Nat) (fuel : Nat) : DecM (Option Value × Nat) :=
  match fuel with
  | 0 => .error .fuelExhausted
  | fuel + 1 =>
    if ¬ startsWithChar headerPart.data '[' then .ok (none, pos)
    else do
      let (length, delim, fields) ← parseArrayHeader headerPart lineNum opts.strict
      let inlineContent : Option String :=
        match findCharIdx headerPart.data ':' with
        | some colonPos =>
          let afterColon := String.mk (trimChars (headerPart.data.drop (colonPos + 1)))
          if afterColon ≠ "" then some afterColon else none
        | none => none
      match inlineContent with
      | some content => do
        let v ← decodeInlineArray content delim length lineNum opts.strict
        .ok (some v, pos)
      | none =>
        if ¬ fields.isEmpty then do
          let (v, posAfter) ← decodeTabularArray opts lines (parentDepth + 1) length delim
            fields pos [] fuel
          .ok (some v, posAfter)
        else do
          let (v, posAfter) ← decodeListArray opts lines (parentDepth + 1) length delim
            pos [] fuel
          .ok (some v, posAfter)

termination_by structural fuel

/-- The row loop plus final count check of `Decoder::decode_tabular_array`. -/
def decodeTabularArray (opts : DecOpts) (lines : List Line) (rowDepth expectedRows : Nat)
    (delim : Delim) (fields : List String) (pos : Nat) (acc : List Value)
    (fuel : Nat) : DecM (Value × Nat) :=
  match fuel with
  | 0 => .error .fuelExhausted
  | fuel + 1 =>
    let finish : DecM (Value × Nat) :=
      if opts.strict ∧ acc.length ≠ expectedRows then
        .error (.arrayLengthMismatch expectedRows acc.length)
      else .ok (.arr acc, pos)
    match lines.get? pos with
    | none => finish
    | some line =>
      if line.depth = rowDepth then do
        let values := splitByDelimiter line.content delim
        if opts.strict ∧ values.length ≠ fields.length then
          .error (.rowWidthMismatch line.lineNum fields.length values.length)
        else do
          let row ← buildRowGo values line.lineNum opts.strict [] 0 fields
          decodeTabularArray opts lines rowDepth expectedRows delim fields (pos + 1)
            (acc ++ [.obj row]) fuel
      else finish

termination_by structural fuel

/-- The item loop plus final count check of `Decoder::decode_list_array`
(the delimiter argument is unused in the source as well). -/
def decodeListArray (opts : DecOpts) (lines : List Line) (itemDepth expectedLen : Nat)
    (delim : Delim) (pos : Nat) (acc : List Value) (fuel : Nat) : DecM (Value × Nat) :=
  match fuel with
  | 0 => .error .fuelExhausted
  | fuel + 1 =>
    let finish : DecM (Value × Nat) :=
      if opts.strict ∧ acc.length ≠ expectedLen then
        .error (.arrayLengthMismatch expectedLen acc.length)
      else .ok (.arr acc, pos)
    match lines.get? pos with
    | none => finish
    | some line =>
      if line.depth = itemDepth then
        if ¬ listStartsWith line.content.data "- ".data then finish
        else do
          let itemContent := String.mk (line.content.data.drop 2)
          let pos := pos + 1
          let (value, posAfter) ←
            if startsWithChar itemContent.data '[' then do
              let (length, d, _fields) ← parseArrayHeader itemContent line.lineNum opts.strict
              match findCharIdx itemContent.data ':' with
              | some colonPos => do
                let afterColon := String.mk (trimChars (itemContent.data.drop (colonPos + 1)))
                let v ← decodeInlineArray afterColon d length line.lineNum opts.strict
                pure (v, pos)
              | none => pure (Value.null, pos)
            else do
              match ← parseKeyValue itemContent line.lineNum opts.strict with
              | some (key, valuePart) => do
                let (o, posAfter) ← decodeListItemObject opts lines key valuePart itemDepth
                  line.lineNum pos fuel
                pure (Value.obj o, posAfter)
              | none => do
                let v ← parsePrimitive itemContent line.lineNum opts.strict
                pure (v, pos)
          decodeListArray opts lines itemDepth expectedLen delim posAfter
            (acc ++ [value]) fuel
      else finish

termination_by structural fuel

/-- First-field handling of `Decoder::decode_list_item_object`. -/
def decodeListItemObject (opts : DecOpts) (lines : List Line) (firstKey firstValue : String)
    (itemDepth lineNum pos : Nat) (fuel : Nat) : DecM (List (String × Value) × Nat) :=
  match fuel with
  | 0 => .error .fuelExhausted
  | fuel + 1 => do
    let (obj, posAfter) ←
      if firstValue = "" then
        match lines.get? pos with
        | some next =>
          if next.depth > itemDepth then do
            let (v, p) ← decodeObject opts lines (itemDepth + 1) pos [] fuel
            pure (mapInsert [] firstKey v, p)
          else pure (mapInsert [] firstKey (Value.obj []), pos)
        | none => pure (mapInsert [] firstKey (Value.obj []), pos)
      else do
        match ← tryParseArrayHeader opts lines firstValue itemDepth lineNum pos fuel with
        | (some arrVal, p) => pure (mapInsert [] firstKey arrVal, p)
        | (none, _) => do
          let v ← parsePrimitive firstValue lineNum opts.strict
          pure (mapInsert [] firstKey v, pos)
    decodeListItemRest opts lines itemDepth obj posAfter fuel

termination_by structural fuel

/-- The remaining-fields loop of `Decoder::decode_list_item_object`. -/
def decodeListItemRest (opts : DecOpts) (lines : List Line) (itemDepth : Nat)
    (obj : List (String × Value)) (pos : Nat) (fuel : Nat) :
    DecM (List (String × Value) × Nat) :=
  match fuel with
  | 0 => .error .fuelExhausted
  | fuel + 1 =>
    match lines.get? pos with
    | none => .ok (obj, pos)
    | some line =>
      if line.depth = itemDepth ∧ ¬ listStartsWith line.content.data "- ".data then do
        match ← parseKeyValue line.content line.lineNum opts.strict with
        | some (k, v) =>
          let pos := pos + 1
          if v = "" then
            match lines.get? pos with
            | some next =>
              if next.depth > itemDepth then do
                let (nested, p) ← decodeObject opts lines (itemDepth + 1) pos [] fuel
                decodeListItemRest opts lines itemDepth (mapInsert obj k nested) p fuel
              else
                decodeListItemRest opts lines itemDepth (mapInsert obj k (Value.obj [])) pos fuel
            | none =>
              decodeListItemRest opts lines itemDepth (mapInsert obj k (Value.obj [])) pos fuel
          else do
            match ← tryParseArrayHeader opts lines v itemDepth line.lineNum pos fuel with
            | (some arrVal, p) =>
              decodeListItemRest opts lines itemDepth (mapInsert obj k arrVal) p fuel
            | (none, _) => do
              let pv ← parsePrimitive v line.lineNum opts.strict
              decodeListItemRest opts lines itemDepth (mapInsert obj k pv) pos fuel
        | none => .ok (obj, pos)
      else .ok (obj, pos)

termination_by structural fuel

end

/-- Fuel supplied by `decode`: ample for the loop/recursion pattern of the
decoder on any input the theorems evaluate. -/
def decodeFuel (ls : List Line) : Nat :=
  4 * ls.length + 8

/-- The root-array branch of `Decoder::decode` (`Decoder::decode_array`). -/
def decodeRootArrayBranch (opts : DecOpts) (ls : List Line) (l0 : Line) : DecM Value := do
  let (length, delim, fields) ← parseArrayHeader l0.content l0.lineNum opts.strict
  let r ←
    if ¬ fields.isEmpty then
      decodeTabularArray opts ls 1 length delim fields 1 [] (decodeFuel ls)
    else
      decodeListArray opts ls 1 length delim 1 [] (decodeFuel ls)
  .ok r.1

/-- The root-object branch of `Decoder::decode`. -/
def decodeRootObjectBranch (opts : DecOpts) (ls : List Line) : DecM Value := do
  let r ← decodeObject opts ls 0 0 [] (decodeFuel ls)
  .ok r.1

/-- The root dispatch of `Decoder::decode`. -/
def rootDispatch (opts : DecOpts) (ls : List Line) : DecM Value :=
  match ls with
  | [] => .ok (.obj [])
  | l0 :: rest =>
    if isRootArrayContent l0.content then decodeRootArrayBranch opts ls l0
    else if rest.isEmpty ∧ ¬ isKeyValue l0.content then
      parsePrimitive l0.content l0.lineNum opts.strict
    else decodeRootObjectBranch opts ls

/-- `decode`: line preprocessing followed by root dispatch. -/
def decode (input : String) (opts : DecOpts) : DecM Value := do
  let ls ← parseLines input opts
  rootDispatch opts ls

/-! ## Helper lemmas -/

theorem lookup_mapInsert (m : List (String × Value)) (k : String) (v : Value) :
    List.lookup k (mapInsert m k v) = some v := by
  induction m with
  | nil => simp [mapInsert, List.lookup]
  | cons hd tl ih =>
    obtain ⟨k', v'⟩ := hd
    by_cases h : k' = k
    · simp [mapInsert, h, List.lookup]
    · have hne : (k == k') = false := beq_eq_false_iff_ne.mpr (fun hc => h hc.symm)
      simp [mapInsert, h, List.lookup, ih, hne]

theorem mapInsert_mapInsert (m : List (String × Value)) (k : String) (v1 v2 : Value) :
    mapInsert (mapInsert m k v1) k v2 = mapInsert m k v2 := by
  induction m with
  | nil => simp [mapInsert]
  | cons hd tl ih =>
    obtain ⟨k', v'⟩ := hd
    by_cases h : k' = k
    · simp [mapInsert, h]
    · simp [mapInsert, h, ih]

theorem unescapeInner_false_ok (ln : Nat) (cs : List Char) :
    ∃ r, unescapeInner ln false cs = .ok r := by
  induction cs using unescapeInner.induct ln false
  all_goals try simp_all [unescapeInner]
  all_goals (rename_i ih; obtain ⟨r, hr⟩ := ih; rw [hr]; exact ⟨_, rfl⟩)

theorem unescapeString_false_ok (s : String) (ln : Nat) :
    ∃ r, unescapeString s ln false = .ok r := by
  unfold unescapeString
  dsimp only
  split
  · exact ⟨_, rfl⟩
  · split
    · exact ⟨_, rfl⟩
    · obtain ⟨r, hr⟩ := unescapeInner_false_ok ln ((trimChars s.data).drop 1).dropLast
      rw [hr]
      exact ⟨_, rfl⟩

theorem parsePrimitive_false_ok (s : String) (ln : Nat) :
    ∃ v, parsePrimitive s ln false = .ok v := by
  unfold parsePrimitive
  dsimp only
  split
  · obtain ⟨r, hr⟩ := unescapeString_false_ok (String.mk (trimChars s.data)) ln
    rw [hr]
    exact ⟨_, rfl⟩
  all_goals (repeat' split) <;> exact ⟨_, rfl⟩

theorem collectPrimitives_false_ok (vs : List String) (ln : Nat) :
    ∃ xs, collectPrimitives vs ln false = .ok xs ∧ xs.length = vs.length := by
  induction vs with
  | nil => exact ⟨[], rfl, rfl⟩
  | cons v rest ih =>
    obtain ⟨x, hx⟩ := parsePrimitive_false_ok v ln
    obtain ⟨xs, hxs, hlen⟩ := ih
    refine ⟨x :: xs, ?_, by simp [hlen]⟩
    simp only [collectPrimitives, hx, hxs]
    rfl

theorem trimChars_quoted (cs : List Char) :
    trimChars ('"' :: cs ++ ['"']) = '"' :: cs ++ ['"'] := by
  unfold trimChars
  have hws : isWs '"' = false := rfl
  have h1 : List.dropWhile isWs ('"' :: cs ++ ['"']) = '"' :: cs ++ ['"'] := by
    simp [List.dropWhile, hws]
  rw [h1]
  have h2 : ('"' :: cs ++ ['"']).reverse = '"' :: (cs.reverse ++ ['"']) := by
    simp
  rw [h2]
  have h3 : List.dropWhile isWs ('"' :: (cs.reverse ++ ['"'])) = '"' :: (cs.reverse ++ ['"']) := by
    simp [List.dropWhile, hws]
  rw [h3, ← h2, List.reverse_reverse]

theorem unescapeString_quoted (cs : List Char) (ln : Nat) (st : Bool)
    (h : '\\' ∈ cs) :
    unescapeString (String.mk ('"' :: cs ++ ['"'])) ln st
      = (unescapeInner ln st cs).map String.mk := by
  unfold unescapeString
  dsimp only
  rw [trimChars_quoted]
  have hend : endsWithChar ('"' :: cs ++ ['"']) '"' = true := by
    have hsplit : ('"' :: cs ++ ['"']) = ('"' :: cs) ++ ['"'] := by simp
    rw [endsWithChar, hsplit, List.getLast?_concat]
    simp
  have hinner : (List.drop 1 ('"' :: cs ++ ['"'])).dropLast = cs := by simp
  rw [hinner]
  have hcont : cs.contains '\\' = true := by simpa using h
  rw [if_neg (not_not_intro ⟨rfl, hend⟩), if_neg (not_not_intro hcont)]

/-- Spec-side description of the line the strict preprocessor rejects: the
first non-blank line (1-based index) whose leading-whitespace count is not a
multiple of the indent width. -/
def firstBadLine (indent : Nat) : Nat → List (List Char) → Option Nat
  | _, [] => none
  | idx, l :: rest =>
    if ¬ (trimChars l).isEmpty ∧ leadingWsCount l % indent ≠ 0 then some (idx + 1)
    else firstBadLine indent (idx + 1) rest

theorem parseLinesGo_firstBad (opts : DecOpts) (hstrict : opts.strict = true) :
    ∀ (raw : List (List Char)) (idx j : Nat),
      firstBadLine opts.indent idx raw = some j →
      parseLinesGo opts idx raw = .error (.invalidIndentation j) := by
  intro raw
  induction raw with
  | nil => intro idx j hj; simp [firstBadLine] at hj
  | cons l rest ih =>
    intro idx j hj
    by_cases hblank : (trimChars l).isEmpty = true
    · have hcond : ¬ (¬ (trimChars l).isEmpty = true ∧ leadingWsCount l % opts.indent ≠ 0) := by
        simp [hblank]
      rw [firstBadLine, if_neg hcond] at hj
      rw [parseLinesGo, if_pos hblank]
      exact ih (idx + 1) j hj
    · by_cases hbad : leadingWsCount l % opts.indent ≠ 0
      · rw [firstBadLine, if_pos ⟨hblank, hbad⟩] at hj
        cases hj
        rw [parseLinesGo, if_neg hblank, if_pos ⟨hstrict, hbad⟩]
      · have hcond : ¬ (¬ (trimChars l).isEmpty = true ∧ leadingWsCount l % opts.indent ≠ 0) := by
          simp [hbad]
        rw [firstBadLine, if_neg hcond] at hj
        rw [parseLinesGo, if_neg hblank, if_neg (by simp [hbad])]
        rw [ih (idx + 1) j hj]
        rfl

theorem parseLinesGo_false_ok (opts : DecOpts) (hstrict : opts.strict = false) :
    ∀ (raw : List (List Char)) (idx : Nat), ∃ ls, parseLinesGo opts idx raw = .ok ls := by
  intro raw
  induction raw with
  | nil => exact fun _ => ⟨[], rfl⟩
  | cons l rest ih =>
    intro idx
    by_cases hblank : (trimChars l).isEmpty = true
    · rw [parseLinesGo, if_pos hblank]
      exact ih (idx + 1)
    · obtain ⟨ls, hls⟩ := ih (idx + 1)
      rw [parseLinesGo, if_neg hblank, if_neg (by simp [hstrict])]
      rw [hls]
      exact ⟨_, rfl⟩

theorem contains_iff_mem (l : List Char) (c : Char) : l.contains c = true ↔ c ∈ l :=
  List.elem_iff

/-- The quoting condition of `Encoder::quote_string` as the specification
words it. -/
def specNeedsQuoting (s : String) (d : Delim) : Prop :=
  s = "" ∨ s.data.head? = some ' ' ∨ s.data.getLast? = some ' '
  ∨ s = "true" ∨ s = "false" ∨ s = "null" ∨ s = "-"
  ∨ s.data.head? = some '-'
  ∨ ':' ∈ s.data ∨ '"' ∈ s.data ∨ '\\' ∈ s.data ∨ '[' ∈ s.data ∨ ']' ∈ s.data
  ∨ '\x7b' ∈ s.data ∨ '\x7d' ∈ s.data ∨ '\n' ∈ s.data ∨ '\r' ∈ s.data ∨ '\t' ∈ s.data
  ∨ d.asChar ∈ s.data
  ∨ (parseF64 s).isSome = true
  ∨ ∃ c rest, s.data = '0' :: c :: rest ∧ c.isDigit = true

theorem isNumericLike_iff (s : String) :
    isNumericLike s = true ↔
      ((parseF64 s).isSome = true ∨ ∃ c rest, s.data = '0' :: c :: rest ∧ c.isDigit = true) := by
  unfold isNumericLike
  rw [Bool.or_eq_true]
  constructor
  · rintro (h | h)
    · right
      rcases hd : s.data with _ | ⟨c0, _ | ⟨c1, rest⟩⟩ <;> rw [hd] at h
      · simp at h
      · simp at h
      · by_cases h0 : c0 = '0'
        · subst h0
          exact ⟨c1, rest, rfl, by simpa using h⟩
        · exfalso
          revert h
          simp [h0]
    · exact Or.inl h
  · rintro (h | ⟨c, rest, he, hdig⟩)
    · exact Or.inr h
    · left
      rw [he]
      simpa using hdig

theorem length_filterMap_asObject (l : List Value) :
    (l.filterMap asObject).length = l.length ↔ ∀ v ∈ l, ∃ o, v = Value.obj o := by
  induction l with
  | nil => simp
  | cons v rest ih =>
    have hle := List.length_filterMap_le asObject rest
    cases v
    case obj o => simp [asObject, List.filterMap_cons, ih]
    all_goals
      simp [asObject, List.filterMap_cons]
      omega

theorem checkField_iff (o : List (String × Value)) (f : String) :
    (match List.lookup f o with
     | some v => isPrimitive v
     | none => false) = true
      ↔ ∃ pv, List.lookup f o = some pv ∧ isPrimitive pv = true := by
  cases h : List.lookup f o <;> simp [h]

theorem asObject_eq_some (w : Value) (o : List (String × Value))
    (h : asObject w = some o) : w = Value.obj o := by
  cases w <;> simp [asObject] at h
  rw [h]

theorem detectTabular_iff (arr : List Value) (fs : List String) :
    detectTabular arr = some fs ↔
      ((∃ f0 rest, arr = Value.obj f0 :: rest ∧ fs = f0.map Prod.fst)
        ∧ ∀ v ∈ arr, ∃ o, v = Value.obj o ∧ o.length = fs.length
            ∧ ∀ f ∈ fs, ∃ pv, List.lookup f o = some pv ∧ isPrimitive pv = true) := by
  cases arr with
  | nil => simp [detectTabular]
  | cons v rest =>
    unfold detectTabular
    rw [if_neg (by simp)]
    by_cases hlen : ((v :: rest).filterMap asObject).length = (v :: rest).length
    · have hall : ∀ w ∈ (v :: rest), ∃ o, w = Value.obj o :=
        (length_filterMap_asObject _).mp hlen
      obtain ⟨o₀, ho⟩ := hall v (List.mem_cons_self v rest)
      subst ho
      have hobjs : (Value.obj o₀ :: rest).filterMap asObject
          = o₀ :: rest.filterMap asObject := by
        simp [List.filterMap_cons, asObject]
      rw [if_neg (by simp [hlen]), hobjs]
      dsimp only
      by_cases hcheck : (o₀ :: rest.filterMap asObject).all (fun o =>
          o.length = (o₀.map Prod.fst).length
          && (o₀.map Prod.fst).all (fun f =>
               match List.lookup f o with
               | some v => isPrimitive v
               | none => false)) = true
      · rw [if_pos hcheck]
        simp only [Option.some.injEq]
        constructor
        · rintro rfl
          refine ⟨⟨o₀, rest, rfl, rfl⟩, ?_⟩
          intro w hw
          obtain ⟨o, hwo⟩ := hall w hw
          subst hwo
          have hmem : o ∈ o₀ :: rest.filterMap asObject := by
            rw [← hobjs]
            exact List.mem_filterMap.mpr ⟨Value.obj o, hw, rfl⟩
          have hc := (List.all_eq_true.mp hcheck) o hmem
          rw [Bool.and_eq_true] at hc
          refine ⟨o, rfl, by simpa using hc.1, ?_⟩
          intro f hf
          exact (checkField_iff o f).mp ((List.all_eq_true.mp hc.2) f hf)
        · rintro ⟨⟨f0, rest', heq, hfs⟩, _⟩
          injection heq with hh ht
          injection hh with hoo
          subst hoo
          exact hfs.symm
      · rw [if_neg hcheck]
        constructor
        · intro h
          cases h
        · rintro ⟨⟨f0, rest', heq, hfs⟩, hforall⟩
          injection heq with hh ht
          injection hh with hoo
          subst hoo
          subst ht
          exfalso
          apply hcheck
          rw [List.all_eq_true]
          intro o hmem
          rw [← hobjs] at hmem
          obtain ⟨w, hw, hwo⟩ := List.mem_filterMap.mp hmem
          have hwob := asObject_eq_some w o hwo
          subst hwob
          obtain ⟨o', ho', hlen', hfield⟩ := hforall _ hw
          injection ho' with hoo'
          subst hoo'
          rw [Bool.and_eq_true]
          refine ⟨by simpa [← hfs] using hlen', ?_⟩
          rw [List.all_eq_true]
          intro f hf
          refine (checkField_iff o f).mpr ?_
          apply hfield
          rw [hfs]
          exact hf
    · rw [if_pos hlen]
      constructor
      · intro h
        cases h
      · rintro ⟨⟨f0, rest', heq, hfs⟩, hforall⟩
        exfalso
        apply hlen
        apply (length_filterMap_asObject _).mpr
        intro w hw
        obtain ⟨o, ho, _, _⟩ := hforall w hw
        exact ⟨o, ho⟩

/-! ## Claims -/

/-- C1. The round-trip invariant decode(encode(v)) = v fails on the value
tree [[{}]] (an array whose only element is an array containing one empty
object) with matching default configurations: the encoder's list branch
renders the inner array inline, turning the nested empty object into an
empty token, and the decoder reads that token back as the empty string, so
decode(encode([[{}]])) = Ok [[""]] ≠ Ok [[{}]]. -/
theorem c1_roundtrip_violation :
    encode (.arr [.arr [.obj []]]) defaultEnc = "[1]:\n  - [1]: "
    ∧ decode (encode (.arr [.arr [.obj []]]) defaultEnc) defaultDec
        = .ok (.arr [.arr [.str ""]])
    ∧ Value.arr [.arr [.str ""]] ≠ Value.arr [.arr [.obj []]] := by
  have he : encode (.arr [.arr [.obj []]]) defaultEnc = "[1]:\n  - [1]: " := by
    simp [encode, encodeArrayAfterKey, encodeListItems, detectTabular,
      isInlinePrimitiveArray, asObject, isPrimitive, writeArrayHeader, joinQuoted,
      joinQuotedGo, quotePrimitive, indentStr, defaultEnc, Delim.headerSymbol, Delim.asChar]
    rfl
  refine ⟨he, ?_, by simp⟩
  rw [he]
  rfl

/-- C2 counterexample. Changing the second object's field order does NOT
force the List representation: detect_tabular checks only field count and
membership (via map lookup), not order, so
[{"id":1,"name":"Alice"},{"name":"Bob","id":2}] is still detected and
encoded as Tabular, with values emitted in the first object's field order. -/
theorem c2_field_order_counterexample :
    detectTabular
      [.obj [("id", .num (.int 1)), ("name", .str "Alice")],
       .obj [("name", .str "Bob"), ("id", .num (.int 2))]] = some ["id", "name"]
    ∧ encode (.obj [("items", .arr
        [.obj [("id", .num (.int 1)), ("name", .str "Alice")],
         .obj [("name", .str "Bob"), ("id", .num (.int 2))]])]) defaultEnc
      = "items[2]\x7bid,name\x7d:\n  1,Alice\n  2,Bob" := by
  constructor
  · rfl
  · simp [encode, encodeObjectGo, encodeArrayAfterKey, encodeTabularRows, encodeTabularRow,
      detectTabular, asObject, isPrimitive, writeArrayHeader, joinKeysGo, joinFieldsGo,
      quotePrimitive, quoteString, needsQuoting, isNumericLike, parseF64, normalizeNumber,
      indentStr, encodeKey, defaultEnc, Delim.headerSymbol, Delim.asChar]
    rfl

/-- C2 (amended). The encoder chooses Tabular exactly when the array is
non-empty, every element is an object, every element object has the same
number of fields as the first and contains every field name of the first
(order may differ), and each of those field values is primitive; the field
list is the first object's ordered field list. Encoding
[{"id":1,"name":"Alice"},{"id":2,"name":"Bob"}] as field items yields the
tabular text with rows "  1,Alice" and "  2,Bob"; adding an extra field to
the second object defeats tabular and inline detection and forces the List
representation. -/
theorem c2_tabular_detection_amended :
    (∀ (arr : List Value) (fs : List String),
      detectTabular arr = some fs ↔
        ((∃ f0 rest, arr = Value.obj f0 :: rest ∧ fs = f0.map Prod.fst)
          ∧ ∀ v ∈ arr, ∃ o, v = Value.obj o ∧ o.length = fs.length
              ∧ ∀ f ∈ fs, ∃ pv, List.lookup f o = some pv ∧ isPrimitive pv = true))
    ∧ encode (.obj [("items", .arr
        [.obj [("id", .num (.int 1)), ("name", .str "Alice")],
         .obj [("id", .num (.int 2)), ("name", .str "Bob")]])]) defaultEnc
      = "items[2]\x7bid,name\x7d:\n  1,Alice\n  2,Bob"
    ∧ detectTabular
        [.obj [("id", .num (.int 1)), ("name", .str "Alice")],
         .obj [("id", .num (.int 2)), ("name", .str "Bob"), ("x", .num (.int 1))]] = none
    ∧ isInlinePrimitiveArray
        [.obj [("id", .num (.int 1)), ("name", .str "Alice")],
         .obj [("id", .num (.int 2)), ("name", .str "Bob"), ("x", .num (.int 1))]] = false
    ∧ encode (.obj [("items", .arr
        [.obj [("id", .num (.int 1)), ("name", .str "Alice")],
         .obj [("id", .num (.int 2)), ("name", .str "Bob"), ("x", .num (.int 1))]])]) defaultEnc
      = "items[2]:\n  - id: 1\n  name: Alice\n  - id: 2\n  name: Bob\n  x: 1" := by
  refine ⟨detectTabular_iff, ?_, rfl, rfl, ?_⟩
  · simp [encode, encodeObjectGo, encodeArrayAfterKey, encodeTabularRows, encodeTabularRow,
      detectTabular, asObject, isPrimitive, writeArrayHeader, joinKeysGo, joinFieldsGo,
      quotePrimitive, quoteString, needsQuoting, isNumericLike, parseF64, normalizeNumber,
      indentStr, encodeKey, defaultEnc, Delim.headerSymbol, Delim.asChar]
    rfl
  · simp [encode, encodeObjectGo, encodeArrayAfterKey, encodeListItems, encodeListItemFieldsGo,
      detectTabular, isInlinePrimitiveArray, asObject, isPrimitive, writeArrayHeader, joinKeysGo,
      quotePrimitive, quoteString, needsQuoting, isNumericLike, parseF64, normalizeNumber,
      indentStr, encodeKey, defaultEnc, Delim.headerSymbol, Delim.asChar]
    rfl

/-- C2 witness: the amended characterization applied to the concrete
two-object array of the spec's example. -/
theorem c2_tabular_detection_amended_witness :
    (∃ f0 rest,
      ([.obj [("id", .num (.int 1)), ("name", .str "Alice")],
        .obj [("id", .num (.int 2)), ("name", .str "Bob")]] : List Value)
        = Value.obj f0 :: rest ∧ (["id", "name"] : List String) = f0.map Prod.fst)
    ∧ ∀ v ∈ ([.obj [("id", .num (.int 1)), ("name", .str "Alice")],
              .obj [("id", .num (.int 2)), ("name", .str "Bob")]] : List Value),
        ∃ o, v = Value.obj o ∧ o.length = (["id", "name"] : List String).length
          ∧ ∀ f ∈ (["id", "name"] : List String),
              ∃ pv, List.lookup f o = some pv ∧ isPrimitive pv = true :=
  (c2_tabular_detection_amended.1
    [.obj [("id", .num (.int 1)), ("name", .str "Alice")],
     .obj [("id", .num (.int 2)), ("name", .str "Bob")]] ["id", "name"]).mp rfl

/-- C3 counterexample. With strict mode off, the input "user:\n id: 123"
(one leading space where the indent width is 2) does NOT fail with
InvalidIndentation: the preprocessor only checks divisibility when strict is
set, and otherwise assigns depth 1/2 = 0, so decoding succeeds. -/
theorem c3_nonstrict_counterexample :
    decode "user:\n id: 123" { indent := 2, strict := false }
      = .ok (.obj [("user", .obj []), ("id", .num (.int 123))]) := rfl

/-- C3 (amended). An input containing a non-blank line whose leading-space
count is not a multiple of the indent width makes decode fail with
InvalidIndentation naming the first such line when strict mode is on; with
strict mode off the line preprocessor never fails (depth is the floor of
leading-count / indent-width), so no indentation error is raised. In
particular "user:\n id: 123" fails with InvalidIndentation at line 2 under
the strict default options. -/
theorem c3_indentation_amended :
    (∀ (input : String) (opts : DecOpts) (j : Nat),
      opts.strict = true →
      firstBadLine opts.indent 0 (rustLines input) = some j →
      decode input opts = .error (.invalidIndentation j))
    ∧ (∀ (input : String) (opts : DecOpts),
        opts.strict = false → ∃ ls, parseLines input opts = .ok ls)
    ∧ decode "user:\n id: 123" defaultDec = .error (.invalidIndentation 2) := by
  refine ⟨?_, ?_, rfl⟩
  · intro input opts j hstrict hbad
    have h := parseLinesGo_firstBad opts hstrict (rustLines input) 0 j hbad
    simp [decode, parseLines, h]
    rfl
  · intro input opts hstrict
    exact parseLinesGo_false_ok opts hstrict (rustLines input) 0

/-- C3 witness: the strict branch of the amended claim applied to the spec's
concrete example. -/
theorem c3_indentation_amended_witness :
    decode "user:\n id: 123" defaultDec = .error (.invalidIndentation 2) :=
  c3_indentation_amended.1 "user:\n id: 123" defaultDec 2 rfl rfl

/-- C4. The primitive decoder parses a trimmed unquoted token as a number
only if the token is exactly "0", starts with "0.", starts with "-0", or
does not start with "0" at all; "007" decodes to the string "007" while "0"
and "0.5" decode to numbers. -/
theorem c4_leading_zero_guard :
    (∀ (ln : Nat) (strict : Bool), parsePrimitive "007" ln strict = .ok (.str "007"))
    ∧ (∀ (ln : Nat) (strict : Bool), parsePrimitive "0" ln strict = .ok (.num (.int 0)))
    ∧ (∀ (ln : Nat) (strict : Bool),
        parsePrimitive "0.5" ln strict = .ok (.num (.float (1/2))))
    ∧ (∀ (s : String) (ln : Nat) (strict : Bool) (n : JNum),
        parsePrimitive s ln strict = .ok (.num n) →
        trimChars s.data = "0".data
        ∨ listStartsWith (trimChars s.data) "0.".data = true
        ∨ listStartsWith (trimChars s.data) "-0".data = true
        ∨ startsWithChar (trimChars s.data) '0' = false) := by
  refine ⟨fun _ _ => rfl, fun _ _ => rfl, ?_, ?_⟩
  · intro ln strict
    have h : mkRat false ['0'] ['5'] 0 = 1/2 := by
      have h5 : digitsToNat ['5'] = 5 := rfl
      have h0 : digitsToNat ['0'] = 0 := rfl
      simp [mkRat, h5, h0]
      norm_num
    calc parsePrimitive "0.5" ln strict
        = .ok (.num (.float (mkRat false ['0'] ['5'] 0))) := rfl
      _ = .ok (.num (.float (1/2))) := by rw [h]
  · intro s ln strict n h
    unfold parsePrimitive at h
    dsimp only at h
    split at h
    · cases hu : unescapeString (String.mk (trimChars s.data)) ln strict <;>
        simp [hu, Except.map] at h
    · split at h
      · simp at h
      · split at h
        · simp at h
        · split at h
          · simp at h
          · split at h
            · rename_i hc
              rcases hc with ⟨_, h2⟩ | h2 | h2 | h2
              · exact Or.inr (Or.inr (Or.inr (by simpa using h2)))
              · exact Or.inl h2
              · exact Or.inr (Or.inl h2)
              · exact Or.inr (Or.inr (Or.inl h2))
            · simp at h

/-- C4 witness: the only-if direction applied to the token "0". -/
theorem c4_leading_zero_guard_witness :
    trimChars "0".data = "0".data
    ∨ listStartsWith (trimChars "0".data) "0.".data = true
    ∨ listStartsWith (trimChars "0".data) "-0".data = true
    ∨ startsWithChar (trimChars "0".data) '0' = false :=
  c4_leading_zero_guard.2.2.2 "0" 1 true (.int 0) rfl

/-- C5. Decoding "tags[2]: one,two,three" fails with
ArrayLengthMismatch(expected 2, found 3) in strict mode and succeeds with
all 3 parsed elements when strict mode is off; in general an inline array
whose token count differs from the declared length errors in strict mode,
and non-strict decoding keeps every parsed token. -/
theorem c5_inline_count_enforcement :
    decode "tags[2]: one,two,three" { indent := 2, strict := true }
      = .error (.arrayLengthMismatch 2 3)
    ∧ decode "tags[2]: one,two,three" { indent := 2, strict := false }
      = .ok (.obj [("tags", .arr [.str "one", .str "two", .str "three"])])
    ∧ (∀ (s : String) (d : Delim) (n ln : Nat),
        (splitByDelimiter s d).length ≠ n →
        decodeInlineArray s d n ln true
          = .error (.arrayLengthMismatch n (splitByDelimiter s d).length))
    ∧ (∀ (s : String) (d : Delim) (n ln : Nat),
        ∃ vs, decodeInlineArray s d n ln false = .ok (.arr vs)
          ∧ vs.length = (splitByDelimiter s d).length) := by
  refine ⟨rfl, rfl, ?_, ?_⟩
  · intro s d n ln h
    simp [decodeInlineArray, h]
  · intro s d n ln
    obtain ⟨xs, hxs, hlen⟩ := collectPrimitives_false_ok (splitByDelimiter s d) ln
    refine ⟨xs, ?_, hlen⟩
    simp [decodeInlineArray, hxs]
    rfl

/-- C5 witness: the strict mismatch branch applied to the spec's example
tokens. -/
theorem c5_inline_count_enforcement_witness :
    decodeInlineArray "one,two,three" .comma 2 1 true
      = .error (.arrayLengthMismatch 2 (splitByDelimiter "one,two,three" .comma).length) :=
  c5_inline_count_enforcement.2.2.1 "one,two,three" .comma 2 1 (by decide)

/-- C6. The encoder quotes a string value exactly under the spec's listed
conditions (empty; leading or trailing space; the literals true, false,
null, or a lone hyphen; leading hyphen; special characters; the delimiter;
numeric-like); quoting applies quote-and-escape and otherwise the string is
emitted verbatim. Encoding the string "true" as an array element yields the
quoted token, and "a,b" is quoted under the comma delimiter but not under
pipe. -/
theorem c6_quoting_decision :
    (∀ (s : String) (d : Delim), needsQuoting s d = true ↔ specNeedsQuoting s d)
    ∧ (∀ (s : String) (d : Delim), needsQuoting s d = true →
        quoteString s d = quoteAndEscape s)
    ∧ (∀ (s : String) (d : Delim), needsQuoting s d = false → quoteString s d = s)
    ∧ encode (.obj [("v", .arr [.str "true"])]) defaultEnc = "v[1]: \"true\""
    ∧ quoteString "a,b" .comma = "\"a,b\""
    ∧ quoteString "a,b" .pipe = "a,b" := by
  refine ⟨?_, ?_, ?_, ?_, rfl, rfl⟩
  · intro s d
    unfold needsQuoting specNeedsQuoting
    simp only [Bool.or_eq_true, startsWithChar, endsWithChar, decide_eq_true_eq,
      String.isEmpty_iff, contains_iff_mem, isNumericLike_iff, or_assoc]
  · intro s d h
    unfold quoteString
    rw [if_pos h]
  · intro s d h
    unfold quoteString
    rw [if_neg (by simp [h])]
  · simp [encode, encodeObjectGo, encodeArrayAfterKey, detectTabular, isInlinePrimitiveArray,
      asObject, isPrimitive, writeArrayHeader, joinQuoted, joinQuotedGo, quotePrimitive,
      quoteString, needsQuoting, isNumericLike, parseF64, quoteAndEscape, normalizeNumber,
      indentStr, encodeKey, defaultEnc, Delim.headerSymbol, Delim.asChar]
    rfl

/-- C6 witness: the quoting branch applied to the string "true" under the
comma delimiter. -/
theorem c6_quoting_decision_witness :
    quoteString "true" .comma = quoteAndEscape "true" :=
  c6_quoting_decision.2.1 "true" .comma rfl

/-- C7. Escape processing in a quoted string: the pairs backslash-backslash,
backslash-quote, backslash-n, backslash-r, backslash-t map to backslash,
quote, newline, carriage return and tab; any other escaped character is
InvalidEscapeSequence in strict mode and passes through literally
(backslash plus character) in non-strict mode; a trailing unmatched
backslash errors in strict mode and is emitted literally otherwise; a
quoted string whose content contains a backslash is routed through this
processing. -/
theorem c7_escape_processing :
    (∀ (ln : Nat) (st : Bool) (rest : List Char),
      unescapeInner ln st ('\\' :: '\\' :: rest) = (unescapeInner ln st rest).map ('\\' :: ·)
      ∧ unescapeInner ln st ('\\' :: '"' :: rest) = (unescapeInner ln st rest).map ('"' :: ·)
      ∧ unescapeInner ln st ('\\' :: 'n' :: rest) = (unescapeInner ln st rest).map ('\n' :: ·)
      ∧ unescapeInner ln st ('\\' :: 'r' :: rest) = (unescapeInner ln st rest).map ('\r' :: ·)
      ∧ unescapeInner ln st ('\\' :: 't' :: rest) = (unescapeInner ln st rest).map ('\t' :: ·))
    ∧ (∀ (ln : Nat) (c : Char) (rest : List Char),
        c ≠ '\\' → c ≠ '"' → c ≠ 'n' → c ≠ 'r' → c ≠ 't' →
        (∃ seq, unescapeInner ln true ('\\' :: c :: rest)
            = .error (.invalidEscapeSequence ln seq))
        ∧ unescapeInner ln false ('\\' :: c :: rest)
            = (unescapeInner ln false rest).map (fun r => '\\' :: c :: r))
    ∧ (∀ ln : Nat, unescapeInner ln true ['\\']
        = .error (.parseError "Unterminated escape sequence"))
    ∧ (∀ ln : Nat, unescapeInner ln false ['\\'] = .ok ['\\'])
    ∧ (∀ (cs : List Char) (ln : Nat) (st : Bool), '\\' ∈ cs →
        unescapeString (String.mk ('"' :: cs ++ ['"'])) ln st
          = (unescapeInner ln st cs).map String.mk) := by
  refine ⟨fun ln st rest => ⟨rfl, rfl, rfl, rfl, rfl⟩, ?_, fun _ => rfl, fun _ => rfl,
    unescapeString_quoted⟩
  intro ln c rest h1 h2 h3 h4 h5
  constructor
  · by_cases ha : isAsciiChar c = true
    · exact ⟨String.mk [c], by simp [unescapeInner, h1, h2, h3, h4, h5, ha]⟩
    · exact ⟨String.mk [c] ++ " (non-ASCII character in escape)",
        by simp [unescapeInner, h1, h2, h3, h4, h5, ha]⟩
  · simp [unescapeInner, h1, h2, h3, h4, h5]

/-- C7 witness: the invalid-escape branch applied to the character x. -/
theorem c7_escape_processing_witness :
    (∃ seq, unescapeInner 1 true ('\\' :: 'x' :: [])
        = .error (.invalidEscapeSequence 1 seq))
    ∧ unescapeInner 1 false ('\\' :: 'x' :: [])
        = (unescapeInner 1 false []).map (fun r => '\\' :: 'x' :: r) :=
  c7_escape_processing.2.1 1 'x' [] (by decide) (by decide) (by decide) (by decide) (by decide)

/-- C8. Root dispatch of decode: empty (or all-blank) input yields the empty
object; a first logical line starting with "[" and containing "]:" routes
to root-array decoding; a single logical line without an unquoted colon is
decoded as one primitive; otherwise the input is decoded as an object at
depth 0. -/
theorem c8_root_dispatch :
    (∀ (input : String) (opts : DecOpts),
      parseLines input opts = .ok [] → decode input opts = .ok (.obj []))
    ∧ (∀ (input : String) (opts : DecOpts) (l0 : Line) (rest : List Line),
        parseLines input opts = .ok (l0 :: rest) →
        isRootArrayContent l0.content = true →
        decode input opts = decodeRootArrayBranch opts (l0 :: rest) l0)
    ∧ (∀ (input : String) (opts : DecOpts) (l0 : Line),
        parseLines input opts = .ok [l0] →
        isRootArrayContent l0.content = false →
        isKeyValue l0.content = false →
        decode input opts = parsePrimitive l0.content l0.lineNum opts.strict)
    ∧ (∀ (input : String) (opts : DecOpts) (l0 : Line) (rest : List Line),
        parseLines input opts = .ok (l0 :: rest) →
        isRootArrayContent l0.content = false →
        ¬ (rest.isEmpty = true ∧ isKeyValue l0.content = false) →
        decode input opts = decodeRootObjectBranch opts (l0 :: rest))
    ∧ decode "" defaultDec = .ok (.obj [])
    ∧ decode "42" defaultDec = .ok (.num (.int 42)) := by
  have key : ∀ (input : String) (opts : DecOpts) (ls : List Line),
      parseLines input opts = .ok ls → decode input opts = rootDispatch opts ls := by
    intro input opts ls hls
    simp only [decode, hls]
    rfl
  refine ⟨?_, ?_, ?_, ?_, rfl, rfl⟩
  · intro input opts hls
    rw [key input opts [] hls]
    rfl
  · intro input opts l0 rest hls hroot
    rw [key input opts (l0 :: rest) hls]
    show (if isRootArrayContent l0.content = true then _ else _) = _
    rw [if_pos hroot]
  · intro input opts l0 hls hroot hkv
    rw [key input opts [l0] hls]
    show (if isRootArrayContent l0.content = true then _ else _) = _
    rw [if_neg (by simp [hroot]), if_pos ⟨rfl, by simp [hkv]⟩]
  · intro input opts l0 rest hls hroot hcond
    rw [key input opts (l0 :: rest) hls]
    show (if isRootArrayContent l0.content = true then _ else _) = _
    rw [if_neg (by simp [hroot]), if_neg (by simpa [Bool.not_eq_true] using hcond)]

/-- C8 witness: the single-primitive branch applied to the input "42". -/
theorem c8_root_dispatch_witness :
    decode "42" defaultDec
      = parsePrimitive (Line.mk "42" 0 1).content (Line.mk "42" 0 1).lineNum
          defaultDec.strict :=
  c8_root_dispatch.2.2.1 "42" defaultDec (Line.mk "42" 0 1) rfl rfl rfl

/-- C9. Duplicate keys at the same depth in the same object do not error:
the map insert replaces the value in place, so the last occurrence wins
(and keeps the first occurrence's position). -/
theorem c9_duplicate_keys_last_wins :
    decode "a: 1\na: 2" defaultDec = .ok (.obj [("a", .num (.int 2))])
    ∧ decode "k: x\nk: y\nk: z" defaultDec = .ok (.obj [("k", .str "z")])
    ∧ (∀ (m : List (String × Value)) (k : String) (v : Value),
        List.lookup k (mapInsert m k v) = some v)
    ∧ (∀ (m : List (String × Value)) (k : String) (v1 v2 : Value),
        mapInsert (mapInsert m k v1) k v2 = mapInsert m k v2) :=
  ⟨rfl, rfl, lookup_mapInsert, mapInsert_mapInsert⟩

/-- C10. In the List representation every array element is emitted inline on
its hyphen line — header plus (for a non-empty inner array) a space and the
delimiter-joined tokens — regardless of the inner array's contents, and
objects or arrays inside that inner array contribute the empty token, so
nested non-primitive values are lost: {"m": [[{"a":1}]]} encodes to
"m[1]:\n  - [1]: " with the object gone. -/
theorem c10_list_nested_arrays_inline :
    (∀ (o : List (String × Value)) (d : Delim), quotePrimitive (.obj o) d = "")
    ∧ (∀ (xs : List Value) (d : Delim), quotePrimitive (.arr xs) d = "")
    ∧ (∀ (opts : EncOpts) (inner rest : List Value) (depth : Nat),
        encodeListItems opts (.arr inner :: rest) depth
          = "\n" ++ indentStr opts (depth + 1) ++ "- "
            ++ (writeArrayHeader inner.length opts.delimiter none
                ++ (if inner.isEmpty then "" else " " ++ joinQuoted inner opts.delimiter))
            ++ encodeListItems opts rest depth)
    ∧ (∀ (d : Delim) (v : Value) (vs : List Value),
        joinQuoted (v :: vs) d = quotePrimitive v d ++ joinQuotedGo d 1 vs)
    ∧ (∀ (d : Delim) (i : Nat) (v : Value) (vs : List Value),
        joinQuotedGo d (i + 1) (v :: vs)
          = String.mk [d.asChar] ++ quotePrimitive v d ++ joinQuotedGo d (i + 2) vs)
    ∧ encode (.obj [("m", .arr [.arr [.obj [("a", .num (.int 1))]]])]) defaultEnc
        = "m[1]:\n  - [1]: " := by
  refine ⟨fun _ _ => rfl, fun _ _ => rfl, ?_, ?_, ?_, ?_⟩
  · intro opts inner rest depth
    rw [encodeListItems]
  · intro d v vs
    simp [joinQuoted, joinQuotedGo]
  · intro d i v vs
    simp [joinQuotedGo, String.mk]
  · simp [encode, encodeObjectGo, encodeArrayAfterKey, encodeListItems, detectTabular,
      isInlinePrimitiveArray, asObject, isPrimitive, writeArrayHeader, joinQuoted, joinQuotedGo,
      quotePrimitive, indentStr, encodeKey, defaultEnc, Delim.headerSymbol, Delim.asChar]
    rfl

end Json2Toon
